import Mathlib

/-!
Verification development for the masonite_orm relationship engine and
Postgres connection layer.  The Python source under study is
`src/masoniteorm/relationships/BaseRelationship.py` and
`src/masoniteorm/connections/PostgresConnection.py`; the SQLite test file
`tests/sqlite/relationships/test_sqlite_has_many_through_relationship.py`
supplies concrete data for the HasManyThrough worked examples.

The embedding is shallow: attribute values become an inductive `Val`,
entities become association lists of attributes, query builders over a
table become the table name plus the list of rows that the table holds,
and executing a built query becomes filtering that row list.  Machinery
that is stateful in Python (the descriptor protocol, the connection
transaction bookkeeping) becomes explicit state passing.
-/

/-- A Python attribute value as it appears in this code base: an integer,
a string, or `None` (SQL NULL). -/
inductive Val where
  | vInt : Int → Val
  | vStr : String → Val
  | vNull : Val
deriving DecidableEq, Repr

/-- A hydrated model instance `__attributes__`: an ordered mapping from
column name to value, as an association list. -/
structure Entity where
  attrs : List (String × Val)
deriving DecidableEq, Repr

/-- Attribute lookup (`entity.__attributes__[key]` / `getattr`), `none`
when the column is absent. -/
def Entity.get (e : Entity) (k : String) : Option Val :=
  (e.attrs.find? (fun kv => kv.1 == k)).map (fun kv => kv.2)

/-- Method `Collection._get_value(key)`: the list of the given attribute drawn
from each entity in order. -/
def getValue (key : String) (c : List Entity) : List (Option Val) :=
  c.map (fun e => e.get key)

/-- Worker for `uniqueVals`: `acc` holds the values already seen, in
reverse order of first occurrence. -/
def uniqueAux (acc : List (Option Val)) : List (Option Val) → List (Option Val)
  | [] => acc.reverse
  | x :: xs => if x ∈ acc then uniqueAux acc xs else uniqueAux (x :: acc) xs

/-- Method `Collection.unique()`: drop duplicates, keeping the first
occurrence of each value and the order of first occurrences. -/
def uniqueVals (l : List (Option Val)) : List (Option Val) :=
  uniqueAux [] l

/-- A query builder scoped to a related model: the table name together
with the rows the table currently holds.  Executing a built query is
filtering these rows. -/
structure Builder where
  table : String
  rows : List Entity
deriving Repr

/-- Method `builder.get_table_name()`. -/
def Builder.get_table_name (b : Builder) : String := b.table

/-- Description of one query sent to the database, recorded so that the
number of issued queries can be stated. -/
inductive IssuedQuery where
  | whereInGet (table : String) (column : String) (values : List (Option Val))
  | whereGet (table : String) (column : String) (value : Option Val)
deriving DecidableEq, Repr

/-- Result of running a relationship query: the queries that were issued
against the database and the rows that came back. -/
structure QueryRun where
  queries : List IssuedQuery
  rows : List Entity
deriving Repr

/-- Method `BaseRelationship.get_related` when `relation` is a `Collection`
(the batched eager-load path): build
`builder.where_in(table.foreign_key, Collection(relation._get_value(local_key)).unique())`
and call `.get()` once.  Executing the `IN` query keeps the related rows
whose foreign-key column holds one of the listed values. -/
def get_related_batch (foreign_key local_key : String) (builder : Builder)
    (relation : List Entity) : QueryRun :=
  let vals := uniqueVals (getValue local_key relation)
  { queries := [IssuedQuery.whereInGet builder.table foreign_key vals]
    rows := builder.rows.filter (fun r => decide (r.get foreign_key ∈ vals)) }

/-- Method `BaseRelationship.get_related` when `relation` is a single model:
build `builder.where(table.foreign_key, getattr(relation, local_key))`
and call `.get()`. -/
def get_related_single (foreign_key local_key : String) (builder : Builder)
    (relation : Entity) : QueryRun :=
  { queries := [IssuedQuery.whereGet builder.table foreign_key (relation.get local_key)]
    rows := builder.rows.filter (fun r => r.get foreign_key == relation.get local_key) }

/-- Method `BaseRelationship.apply_query`: run
`foreign.where(foreign_key, owner.__attributes__[local_key]).first()`. -/
def apply_query (foreign : Builder) (owner : Entity) (foreign_key local_key : String) :
    Option Entity :=
  (foreign.rows.filter (fun r => r.get foreign_key == owner.get local_key)).head?

/-- Modelled from the spec: the eager-load orchestrator distribution
step is not under src/ (only `get_related` is); per §4.3 the orchestrator
"groups results by foreign_key value" and per §4.1, for single-valued
kinds, "each group collapses to its first element".  Given the rows the
batched query returned, the value distributed onto one owner. -/
def distribute_group (foreign_key local_key : String) (batchRows : List Entity)
    (owner : Entity) : List Entity :=
  batchRows.filter (fun r => r.get foreign_key == owner.get local_key)

/-!
## HasManyThrough

The `HasManyThrough` relationship class itself is not under src/ — only
its base class, its declaration in the test file
(`@has_many_through(None, "in_course_id", "active_student_id",
"course_id", "student_id")`) and the tests exercising it are.  Its
resolution algorithm is therefore modelled from the spec (§4.2).
The four keys are: `localKeyOnPivot`, the pivot column referencing the
owner (`in_course_id`); `pivotKeyToRelated`, the pivot column referencing
the related row (`active_student_id`); `ownerKey`, the owner column
matched against the pivot (`course_id`); and `relatedKey`, the related
column matched against the pivot (`student_id`).
-/

/-- The four keys of a HasManyThrough declaration. -/
structure ThroughKeys where
  localKeyOnPivot : String
  pivotKeyToRelated : String
  ownerKey : String
  relatedKey : String
deriving Repr

/-- Modelled from the spec: single-owner HasManyThrough resolution
(§4.2 steps 1–4; the HasManyThrough class is not under src/).
Step 1 selects the pivot rows matching the owner; step 2 collects the
distinct values of the pivot key to the related table; step 3 fetches
the related rows whose key is among the collected values, in insertion
order of the matching pivot rows (§8 key-grouping property); step 4
returns `none` when step 1 yielded zero pivot rows. -/
def hasManyThroughSingle (k : ThroughKeys) (throughRows relatedRows : List Entity)
    (owner : Entity) : Option (List Entity) :=
  let pivot := throughRows.filter
    (fun p => p.get k.localKeyOnPivot == owner.get k.ownerKey)
  if pivot.isEmpty then none
  else
    let vals := uniqueVals (getValue k.pivotKeyToRelated pivot)
    some (vals.flatMap
      (fun v => relatedRows.filter (fun r => r.get k.relatedKey == v)))

/-- Distribution of the batched HasManyThrough results onto one owner:
its pivot group is carved out of the batch-fetched pivot rows, and its
related rows out of the batch-fetched related rows; an empty pivot group
surfaces as `none`. -/
def hmtBatchEntry (k : ThroughKeys) (allPivot allRelated : List Entity)
    (o : Entity) : Entity × Option (List Entity) :=
  let grp := allPivot.filter
    (fun p => p.get k.localKeyOnPivot == o.get k.ownerKey)
  if grp.isEmpty then (o, none)
  else
    (o, some ((uniqueVals (getValue k.pivotKeyToRelated grp)).flatMap
      (fun v => allRelated.filter (fun r => r.get k.relatedKey == v))))

/-- Modelled from the spec: batched HasManyThrough eager loading
(§4.2, batched variant; the HasManyThrough class and the eager-load
orchestrator are not under src/).  Step 1 runs once for all owners with
an `IN` clause; the pivot rows are grouped by owner key; step 3 runs once
for the union of collected values; each owner receives the subset of the
fetched related rows whose key appears in its own pivot group, or `none`
when its pivot group is empty (§3 empty-through policy). -/
def hasManyThroughBatch (k : ThroughKeys) (throughRows relatedRows : List Entity)
    (owners : List Entity) : List (Entity × Option (List Entity)) :=
  let ownerKeys := uniqueVals (getValue k.ownerKey owners)
  let allPivot := throughRows.filter
    (fun p => decide (p.get k.localKeyOnPivot ∈ ownerKeys))
  let allVals := uniqueVals (getValue k.pivotKeyToRelated allPivot)
  let allRelated := relatedRows.filter
    (fun r => decide (r.get k.relatedKey ∈ allVals))
  owners.map (hmtBatchEntry k allPivot allRelated)

/-!
## The descriptor protocol (`BaseRelationship.__get__` / `__getattr__`)

`__get__` inspects `instance.is_loaded()`: on a loaded instance it first
consults `instance._relationships` and returns the cached value on a hit;
on a miss it runs `apply_query` (one database query) and returns the
result — without writing it into `_relationships`.  On an unloaded
instance it returns `self`, the relationship object, whose `__getattr__`
forwards every attribute access to the related builder.
-/

/-- The state the descriptor sees on the instance: `is_loaded()`, the
`__attributes__`, and the `_relationships` cache. -/
structure ModelState where
  loaded : Bool
  attrs : List (String × Val)
  relationships : List (String × Option Entity)
deriving Repr

/-- The instance as an `Entity` (its `__attributes__`). -/
def ModelState.entity (m : ModelState) : Entity := ⟨m.attrs⟩

/-- Lookup in the `_relationships` cache. -/
def ModelState.cached (m : ModelState) (attrName : String) : Option (Option Entity) :=
  (m.relationships.find? (fun kv => kv.1 == attrName)).map (fun kv => kv.2)

/-- What `__get__` hands back: resolved data on a loaded instance, or the
relationship object itself — a proxy to the related builder — on an
unloaded one. -/
inductive GetOutcome where
  | value : Option Entity → GetOutcome
  | scope : Builder → GetOutcome
deriving Repr

/-- Result of one descriptor access: the outcome, the instance state
afterwards, and how many database queries the access issued. -/
structure GetRun where
  outcome : GetOutcome
  state : ModelState
  queriesIssued : Nat
deriving Repr

/-- Method `BaseRelationship.__get__` (source lines 42–66): on a loaded
instance, return the cached value when `attribute in
instance._relationships`, otherwise run `apply_query` (one query) and
return its result — the code returns `result` directly and never stores
it in `instance._relationships`; on an unloaded instance, return the
relationship object as a builder scope. -/
def descriptorGet (attrName : String) (related_builder : Builder)
    (foreign_key local_key : String) (inst : ModelState) : GetRun :=
  if inst.loaded then
    match inst.cached attrName with
    | some v => { outcome := GetOutcome.value v, state := inst, queriesIssued := 0 }
    | none =>
      { outcome := GetOutcome.value
          (apply_query related_builder inst.entity foreign_key local_key)
        state := inst
        queriesIssued := 1 }
  else
    { outcome := GetOutcome.scope related_builder, state := inst, queriesIssued := 0 }

/-- Method `BaseRelationship.__getattr__` (source lines 68–70): attribute access
on the relationship object is forwarded to the related builder, so the
returned scope is chainable; on resolved data there is nothing to
forward. -/
def GetOutcome.forward (o : GetOutcome) (op : Builder → Builder) : Option Builder :=
  match o with
  | GetOutcome.scope b => some (op b)
  | GetOutcome.value _ => none

/-!
## `where_has` (`query_where_exists` / `query_has`)

`BaseRelationship.query_where_exists` (source lines 86–96) installs on
the current builder a `where_exists` clause built from the related
builder constrained by
`where_column(related.foreign_key, current.local_key)` and then passed
through the callers filter callback; `query_has` (lines 185–195) is the
same without a callback.  Executing the resulting correlated `EXISTS`
keeps exactly the owner rows for which the constrained related subquery
is non-empty.  The SQL execution itself lives in the grammar layer,
which the spec treats as an external collaborator, so the standard
meaning of a correlated `EXISTS` is used. -/
def where_has (owners related : List Entity) (foreign_key local_key : String)
    (pred : Entity → Bool) : List Entity :=
  owners.filter (fun o =>
    related.any (fun r => r.get foreign_key == o.get local_key && pred r))

/-- The related rows of one owner under a direct foreign-key
relationship: the rows whose foreign-key column equals the owner
local-key value (what `apply_query` / `get_related` filter on). -/
def relatedRowsOf (related : List Entity) (foreign_key local_key : String)
    (owner : Entity) : List Entity :=
  related.filter (fun r => r.get foreign_key == owner.get local_key)

/-!
## `attach` / `detach`

`detach` (source lines 172–173) runs
`related_record.update({self.foreign_key: None})`: a single `UPDATE`
setting the foreign-key column to NULL.  `update` on a hydrated model
writes the given columns and leaves every other column alone.
-/

/-- One model `.update({key: value})`: overwrite the column if present,
append it otherwise; all other columns keep their values. -/
def Entity.update (e : Entity) (k : String) (v : Val) : Entity :=
  if e.attrs.any (fun kv => kv.1 == k) then
    ⟨e.attrs.map (fun kv => if kv.1 == k then (kv.1, v) else kv)⟩
  else
    ⟨e.attrs ++ [(k, v)]⟩

/-- Method `BaseRelationship.detach` (source lines 172–173):
`related_record.update({self.foreign_key: None})`. -/
def detach (foreign_key : String) (related_record : Entity) : Entity :=
  related_record.update foreign_key Val.vNull

/-- The related table after `detach` ran against one of its rows: the
detached row is updated in place, every other row is untouched, and no
row is deleted. -/
def detachInTable (foreign_key : String) (rows : List Entity)
    (related_record : Entity) : List Entity :=
  rows.map (fun r => if r == related_record then detach foreign_key r else r)

/-!
## PostgresConnection

`PostgresConnection.__init__` (source lines 17–47) stores
`full_details or {}` into `self.full_details` and then, on the next
line, reads `full_details.get("connection_pooling_max_size", 100)` from
the **raw parameter**: when the constructor is called without
`full_details` the parameter is `None`, `None` has no `.get`, and Python
raises `AttributeError`.  `begin` / `commit` / `rollback` / `query`
(lines 155–227) keep a signed transaction level.
-/

/-- The Python exception the embedded constructor can raise. -/
inductive PyError where
  | attributeError : String → PyError
deriving DecidableEq, Repr

/-- The connection state the claims are about. -/
structure PGState where
  full_details : List (String × Val)
  connection_pool_size : Val
  transaction_level : Int
  open_ : Nat
  autocommit : Bool
  connection_open : Bool
  physical_commits : Nat
  physical_rollbacks : Nat
deriving DecidableEq, Repr

/-- Dictionary `.get(key, default)`. -/
def dictGet (d : List (String × Val)) (k : String) (default : Val) : Val :=
  match d.find? (fun kv => kv.1 == k) with
  | some kv => kv.2
  | none => default

/-- Constructor `PostgresConnection.__init__` restricted to the fields the claims
mention: `self.full_details = full_details or {}` succeeds for any
argument, but the very next statement calls `.get` on the raw
`full_details` parameter, so passing `None` (the default) raises
`AttributeError`; with a mapping, `connection_pool_size` is read from it
with default 100, and `transaction_level` and `open` start at 0. -/
def postgresInit (full_details : Option (List (String × Val))) :
    Except PyError PGState :=
  let stored := match full_details with
    | none => []
    | some fd => if fd.isEmpty then [] else fd
  match full_details with
  | none =>
    Except.error (PyError.attributeError
      "NoneType object has no attribute get")
  | some fd =>
    Except.ok
      { full_details := stored
        connection_pool_size := dictGet fd "connection_pooling_max_size" (Val.vInt 100)
        transaction_level := 0
        open_ := 0
        autocommit := false
        connection_open := false
        physical_commits := 0
        physical_rollbacks := 0 }

/-- Method `PostgresConnection.begin` (lines 163–167): turn autocommit off and
increment the transaction level. -/
def pgBegin (s : PGState) : PGState :=
  { s with autocommit := false, transaction_level := s.transaction_level + 1 }

/-- Method `PostgresConnection.commit` (lines 155–161): perform the physical
commit (and restore autocommit) only when the level is exactly 1, then
decrement the level unconditionally. -/
def pgCommit (s : PGState) : PGState :=
  let s' := if s.transaction_level = 1 then
      { s with physical_commits := s.physical_commits + 1, autocommit := true }
    else s
  { s' with transaction_level := s'.transaction_level - 1 }

/-- Method `PostgresConnection.rollback` (lines 169–175): perform the physical
rollback (and restore autocommit) only when the level is exactly 1, then
decrement the level unconditionally. -/
def pgRollback (s : PGState) : PGState :=
  let s' := if s.transaction_level = 1 then
      { s with physical_rollbacks := s.physical_rollbacks + 1, autocommit := true }
    else s
  { s' with transaction_level := s'.transaction_level - 1 }

/-- The `finally` block of `PostgresConnection.query` (lines 223–227):
when the transaction level is at most 0, set `open = 0` and call
`close_connection` (which drops the physical connection); otherwise the
state is untouched. -/
def pgQueryFinally (s : PGState) : PGState :=
  if s.transaction_level ≤ 0 then
    { s with open_ := 0, connection_open := false }
  else s

/-- The operations whose interleavings the transaction-level invariant
ranges over. -/
inductive PGOp where
  | begin_
  | commit
  | rollback
  | query
deriving DecidableEq, Repr

/-- One step of the connection state machine. -/
def pgStep (s : PGState) : PGOp → PGState
  | PGOp.begin_ => pgBegin s
  | PGOp.commit => pgCommit s
  | PGOp.rollback => pgRollback s
  | PGOp.query => pgQueryFinally s

/-- Number of occurrences of one operation in a trace. -/
def countOp (op : PGOp) (ops : List PGOp) : Nat :=
  (ops.filter (fun o => o == op)).length

/-!
## Test fixture

The concrete rows from
`test_sqlite_has_many_through_relationship.py::setUp`.
-/

/-- The `student` table rows from the test fixture. -/
def students : List Entity :=
  [⟨[("student_id", Val.vInt 100), ("name", Val.vStr "Bob")]⟩,
   ⟨[("student_id", Val.vInt 200), ("name", Val.vStr "Alice")]⟩,
   ⟨[("student_id", Val.vInt 300), ("name", Val.vStr "Steve")]⟩,
   ⟨[("student_id", Val.vInt 400), ("name", Val.vStr "Megan")]⟩]

/-- The `course` table rows from the test fixture. -/
def courses : List Entity :=
  [⟨[("course_id", Val.vInt 10), ("name", Val.vStr "Math 101")]⟩,
   ⟨[("course_id", Val.vInt 20), ("name", Val.vStr "History 101")]⟩,
   ⟨[("course_id", Val.vInt 30), ("name", Val.vStr "Math 302")]⟩,
   ⟨[("course_id", Val.vInt 40), ("name", Val.vStr "Biology 302")]⟩]

/-- The `enrolment` pivot rows from the test fixture, in insertion
order. -/
def enrolments : List Entity :=
  [⟨[("active_student_id", Val.vInt 100), ("in_course_id", Val.vInt 30)]⟩,
   ⟨[("active_student_id", Val.vInt 200), ("in_course_id", Val.vInt 10)]⟩,
   ⟨[("active_student_id", Val.vInt 100), ("in_course_id", Val.vInt 10)]⟩,
   ⟨[("active_student_id", Val.vInt 400), ("in_course_id", Val.vInt 20)]⟩]

/-- The key quadruple of the `students` HasManyThrough declaration on
`Course`. -/
def studentsKeys : ThroughKeys :=
  { localKeyOnPivot := "in_course_id"
    pivotKeyToRelated := "active_student_id"
    ownerKey := "course_id"
    relatedKey := "student_id" }

/-- Course 10, "Math 101". -/
def math101 : Entity := ⟨[("course_id", Val.vInt 10), ("name", Val.vStr "Math 101")]⟩

/-- Course 40, "Biology 302", which has no enrolments. -/
def bio302 : Entity := ⟨[("course_id", Val.vInt 40), ("name", Val.vStr "Biology 302")]⟩

/-!
## Helper lemmas
-/

theorem mem_uniqueAux (a : Option Val) (acc l : List (Option Val)) :
    a ∈ uniqueAux acc l ↔ a ∈ acc ∨ a ∈ l := by
  induction l generalizing acc with
  | nil => simp [uniqueAux]
  | cons x xs ih =>
    rw [uniqueAux]
    by_cases hx : x ∈ acc
    · rw [if_pos hx, ih]
      constructor
      · rintro (h | h)
        · exact Or.inl h
        · exact Or.inr (List.mem_cons_of_mem _ h)
      · rintro (h | h)
        · exact Or.inl h
        · rcases List.mem_cons.1 h with h | h
          · exact Or.inl (h ▸ hx)
          · exact Or.inr h
    · rw [if_neg hx, ih]
      simp only [List.mem_cons]
      tauto

theorem nodup_uniqueAux (acc l : List (Option Val)) (hacc : acc.Nodup) :
    (uniqueAux acc l).Nodup := by
  induction l generalizing acc with
  | nil => simpa [uniqueAux] using hacc
  | cons x xs ih =>
    rw [uniqueAux]
    by_cases hx : x ∈ acc
    · rw [if_pos hx]; exact ih acc hacc
    · rw [if_neg hx]; exact ih (x :: acc) (List.nodup_cons.2 ⟨hx, hacc⟩)

theorem mem_uniqueVals (a : Option Val) (l : List (Option Val)) :
    a ∈ uniqueVals l ↔ a ∈ l := by
  rw [uniqueVals, mem_uniqueAux]
  simp

theorem nodup_uniqueVals (l : List (Option Val)) : (uniqueVals l).Nodup :=
  nodup_uniqueAux [] l List.nodup_nil

theorem filter_of_filter_eq_nil {p q : Entity → Bool} {l : List Entity}
    (h : l.filter p = []) : (l.filter q).filter p = [] := by
  rw [List.filter_eq_nil_iff] at h ⊢
  intro a ha
  exact h a (List.mem_of_mem_filter ha)

theorem hmtBatchEntry_fst (k : ThroughKeys) (ap ar : List Entity) (o : Entity) :
    (hmtBatchEntry k ap ar o).1 = o := by
  rw [hmtBatchEntry]
  split <;> rfl

theorem hmtBatchEntry_snd_of_grp_nil (k : ThroughKeys) (ap ar : List Entity)
    (o : Entity)
    (h : ap.filter (fun p => p.get k.localKeyOnPivot == o.get k.ownerKey) = []) :
    (hmtBatchEntry k ap ar o).2 = none := by
  rw [hmtBatchEntry]
  simp [h]

theorem hmtBatchEntry_agrees (k : ThroughKeys)
    (throughRows relatedRows : List Entity)
    (inKeys inVals : Option Val → Bool) (owner : Entity)
    (hk : inKeys (owner.get k.ownerKey) = true)
    (hv : ∀ p ∈ throughRows, inKeys (p.get k.localKeyOnPivot) = true →
      inVals (p.get k.pivotKeyToRelated) = true) :
    (hmtBatchEntry k
        (throughRows.filter (fun p => inKeys (p.get k.localKeyOnPivot)))
        (relatedRows.filter (fun r => inVals (r.get k.relatedKey))) owner).2 =
      hasManyThroughSingle k throughRows relatedRows owner := by
  simp only [hmtBatchEntry, hasManyThroughSingle]
  have hgrp :
      (throughRows.filter (fun p => inKeys (p.get k.localKeyOnPivot))).filter
        (fun p => p.get k.localKeyOnPivot == owner.get k.ownerKey) =
      throughRows.filter
        (fun p => p.get k.localKeyOnPivot == owner.get k.ownerKey) := by
    rw [List.filter_filter]
    refine List.filter_congr ?_
    intro a _
    cases hpa : (a.get k.localKeyOnPivot == owner.get k.ownerKey) with
    | false => simp
    | true =>
      have ha := eq_of_beq hpa
      simp [ha, hk]
  rw [hgrp]
  by_cases hemp :
      (throughRows.filter
        (fun p => p.get k.localKeyOnPivot == owner.get k.ownerKey)).isEmpty
  · simp [hemp]
  · simp only [hemp, Bool.false_eq_true, if_false]
    congr 1
    refine List.flatMap_congr ?_
    intro v hvv
    rw [List.filter_filter]
    refine List.filter_congr ?_
    intro r _
    cases hrv : (r.get k.relatedKey == v) with
    | false => simp
    | true =>
      have hr := eq_of_beq hrv
      rw [mem_uniqueVals] at hvv
      rcases List.mem_map.1 hvv with ⟨p, hpmem, hpv⟩
      have hpthrough := List.mem_of_mem_filter hpmem
      have hpown := List.of_mem_filter hpmem
      have hink : inKeys (p.get k.localKeyOnPivot) = true := by
        rw [eq_of_beq hpown]
        exact hk
      have := hv p hpthrough hink
      rw [hpv] at this
      simp [hr, this]

/-!
## Claim theorems
-/

/-- C1.  The batched eager-load path of `BaseRelationship.get_related`
(called with a `Collection` of owners) issues exactly one query against
the related table, and that query is a `WHERE foreign_key IN (...)`
whose value list is duplicate-free and holds exactly the local-key
values drawn from the owners, regardless of how many owners there
are. -/
theorem get_related_batch_issues_one_distinct_in_query
    (foreign_key local_key : String) (builder : Builder)
    (owners : List Entity) :
    (get_related_batch foreign_key local_key builder owners).queries.length = 1 ∧
    ∃ vals : List (Option Val),
      (get_related_batch foreign_key local_key builder owners).queries =
        [IssuedQuery.whereInGet builder.table foreign_key vals] ∧
      vals.Nodup ∧
      ∀ v, v ∈ vals ↔ ∃ o ∈ owners, o.get local_key = v := by
  refine ⟨rfl, uniqueVals (getValue local_key owners), rfl,
    nodup_uniqueVals _, fun v => ?_⟩
  rw [mem_uniqueVals]
  simp [getValue, eq_comm]

/-- C3.  On the fixture data — pivot rows
`{(100,30),(200,10),(100,10),(400,20)}` and students
`{100:Bob, 200:Alice, 300:Steve, 400:Megan}` — resolving `students` for
course 10 yields exactly Alice then Bob, following the insertion order
of the matching pivot rows, on the single-owner path and on the batched
eager-load path alike. -/
theorem hasManyThrough_worked_example :
    (hasManyThroughSingle studentsKeys enrolments students math101).map
        (getValue "name") =
      some [some (Val.vStr "Alice"), some (Val.vStr "Bob")] ∧
    (hasManyThroughBatch studentsKeys enrolments students courses).map
        (fun e => (e.1.get "name", e.2.map (getValue "name"))) =
      [(some (Val.vStr "Math 101"),
          some [some (Val.vStr "Alice"), some (Val.vStr "Bob")]),
       (some (Val.vStr "History 101"), some [some (Val.vStr "Megan")]),
       (some (Val.vStr "Math 302"), some [some (Val.vStr "Bob")]),
       (some (Val.vStr "Biology 302"), none)] := by
  constructor <;> rfl

/-- C2.  Resolving a HasManyThrough relationship for an owner with zero
matching pivot rows returns `None`, not an empty collection — on the
single-owner path and, for every batch containing the owner, on the
batched eager-load path as well. -/
theorem hasManyThrough_empty_pivot_is_none (k : ThroughKeys)
    (throughRows relatedRows owners : List Entity) (owner : Entity)
    (hempty : throughRows.filter
      (fun p => p.get k.localKeyOnPivot == owner.get k.ownerKey) = []) :
    hasManyThroughSingle k throughRows relatedRows owner = none ∧
    ∀ entry ∈ hasManyThroughBatch k throughRows relatedRows owners,
      entry.1 = owner → entry.2 = none := by
  constructor
  · rw [hasManyThroughSingle]
    simp [hempty]
  · intro entry hentry h1
    simp only [hasManyThroughBatch, List.mem_map] at hentry
    obtain ⟨o, ho, rfl⟩ := hentry
    rw [hmtBatchEntry_fst] at h1
    subst h1
    exact hmtBatchEntry_snd_of_grp_nil _ _ _ _ (filter_of_filter_eq_nil hempty)

/-- Witness for C2 at the fixture: course "Biology 302" has no
enrolments, so its `students` relationship resolves to `None`. -/
theorem hasManyThrough_empty_pivot_is_none_witness :
    hasManyThroughSingle studentsKeys enrolments students bio302 = none :=
  (hasManyThrough_empty_pivot_is_none studentsKeys enrolments students
    courses bio302 (by decide)).1

/-- C4.  For an owner appearing in the batch, the batched eager-load
path and the single-owner path resolve to the same data: for the direct
foreign-key relationship of `BaseRelationship`, distributing the rows of
the batched `get_related` query onto the owner gives exactly the rows of
the single-owner query (and collapsing to the first element gives
exactly `apply_query`); for HasManyThrough, the batch entry of the owner
equals the single-owner resolution. -/
theorem single_batch_resolution_agree
    (foreign_key local_key : String) (b : Builder) (owners : List Entity)
    (owner : Entity) (k : ThroughKeys) (throughRows relatedRows : List Entity)
    (how : owner ∈ owners) :
    distribute_group foreign_key local_key
        (get_related_batch foreign_key local_key b owners).rows owner =
      (get_related_single foreign_key local_key b owner).rows ∧
    (distribute_group foreign_key local_key
        (get_related_batch foreign_key local_key b owners).rows owner).head? =
      apply_query b owner foreign_key local_key ∧
    ∀ entry ∈ hasManyThroughBatch k throughRows relatedRows owners,
      entry.1 = owner →
      entry.2 = hasManyThroughSingle k throughRows relatedRows owner := by
  have hmem : owner.get local_key ∈ uniqueVals (getValue local_key owners) := by
    rw [mem_uniqueVals]
    exact List.mem_map.2 ⟨owner, how, rfl⟩
  have h1 : distribute_group foreign_key local_key
      (get_related_batch foreign_key local_key b owners).rows owner =
      (get_related_single foreign_key local_key b owner).rows := by
    simp only [distribute_group, get_related_batch, get_related_single]
    rw [List.filter_filter]
    refine List.filter_congr ?_
    intro a _
    cases hpa : (a.get foreign_key == owner.get local_key) with
    | false => simp
    | true =>
      have ha := eq_of_beq hpa
      simp [ha, hmem]
  refine ⟨h1, by rw [h1]; rfl, ?_⟩
  intro entry hentry h2
  simp only [hasManyThroughBatch, List.mem_map] at hentry
  obtain ⟨o, ho, rfl⟩ := hentry
  rw [hmtBatchEntry_fst] at h2
  rw [h2]
  refine hmtBatchEntry_agrees k throughRows relatedRows
    (fun x => decide (x ∈ uniqueVals (getValue k.ownerKey owners)))
    (fun x => decide (x ∈ uniqueVals (getValue k.pivotKeyToRelated
      (throughRows.filter (fun p => decide (p.get k.localKeyOnPivot ∈
        uniqueVals (getValue k.ownerKey owners)))))))
    owner ?_ ?_
  · rw [decide_eq_true_eq, mem_uniqueVals]
    exact List.mem_map.2 ⟨owner, how, rfl⟩
  · intro p hp hpk
    rw [decide_eq_true_eq] at hpk ⊢
    rw [mem_uniqueVals]
    refine List.mem_map.2 ⟨p, ?_, rfl⟩
    exact List.mem_filter.2 ⟨hp, by simpa using hpk⟩

/-- Witness for C4 at the fixture: course "Math 101" is in the set of
all courses, so the theorem applies to it; projecting the direct
foreign-key conclusions at that input. -/
theorem single_batch_resolution_agree_witness :
    distribute_group "in_course_id" "course_id"
        (get_related_batch "in_course_id" "course_id"
          ⟨"enrolment", enrolments⟩ courses).rows math101 =
      (get_related_single "in_course_id" "course_id"
        ⟨"enrolment", enrolments⟩ math101).rows :=
  (single_batch_resolution_agree "in_course_id" "course_id"
    ⟨"enrolment", enrolments⟩ courses math101 studentsKeys enrolments students
    (by decide)).1

theorem descriptorGet_state (attrName : String) (b : Builder)
    (foreign_key local_key : String) (inst : ModelState) :
    (descriptorGet attrName b foreign_key local_key inst).state = inst := by
  rw [descriptorGet]
  by_cases h : inst.loaded
  · rw [if_pos h]
    cases hc : inst.cached attrName <;> simp [hc]
  · rw [if_neg h]

/-- Counterexample for C5: on a loaded instance with an empty
relationship cache, the first descriptor access resolves via a query but
does not write the result into the `_relationships` cache, and a second
access on the resulting state issues a second query — so the two
accesses issue two queries in total, not one. -/
theorem lazy_access_does_not_populate_cache :
    ((descriptorGet "profile" ⟨"profiles", [⟨[("user_id", Val.vInt 1)]⟩]⟩
        "user_id" "id" ⟨true, [("id", Val.vInt 1)], []⟩).state.cached
      "profile" = none) ∧
    (descriptorGet "profile" ⟨"profiles", [⟨[("user_id", Val.vInt 1)]⟩]⟩
        "user_id" "id" ⟨true, [("id", Val.vInt 1)], []⟩).queriesIssued +
      (descriptorGet "profile" ⟨"profiles", [⟨[("user_id", Val.vInt 1)]⟩]⟩
        "user_id" "id"
        (descriptorGet "profile" ⟨"profiles", [⟨[("user_id", Val.vInt 1)]⟩]⟩
          "user_id" "id" ⟨true, [("id", Val.vInt 1)], []⟩).state).queriesIssued
      = 2 :=
  ⟨rfl, rfl⟩

/-- C5 amended: when the accessed relationship is already in the
instance cache (the eager-load orchestrator is what populates it), the
descriptor access returns the identical cached value, issues no query
and leaves the instance unchanged, so a repeated access returns the same
cached value again; the descriptor itself never mutates the instance, in
particular the lazy resolution path does not write the cache. -/
theorem cached_access_is_pure_hit (attrName : String) (b : Builder)
    (foreign_key local_key : String) (inst : ModelState) (v : Option Entity)
    (hl : inst.loaded = true) (hc : inst.cached attrName = some v) :
    (descriptorGet attrName b foreign_key local_key inst).outcome =
      GetOutcome.value v ∧
    (descriptorGet attrName b foreign_key local_key inst).queriesIssued = 0 ∧
    (descriptorGet attrName b foreign_key local_key inst).state = inst ∧
    (descriptorGet attrName b foreign_key local_key
        (descriptorGet attrName b foreign_key local_key inst).state).outcome =
      GetOutcome.value v ∧
    ∀ inst2, (descriptorGet attrName b foreign_key local_key inst2).state =
      inst2 := by
  have hone : descriptorGet attrName b foreign_key local_key inst =
      { outcome := GetOutcome.value v, state := inst, queriesIssued := 0 } := by
    rw [descriptorGet]
    simp [hl, hc]
  exact ⟨by rw [hone], by rw [hone], by rw [hone], by simp [hone],
    fun inst2 => descriptorGet_state attrName b foreign_key local_key inst2⟩

/-- Witness for C5 amended: a concrete instance whose cache already
holds the `profile` relationship; accessing it returns exactly the
cached value. -/
theorem cached_access_is_pure_hit_witness :
    (descriptorGet "profile" ⟨"profiles", []⟩ "user_id" "id"
        ⟨true, [("id", Val.vInt 1)],
          [("profile", some ⟨[("user_id", Val.vInt 1)]⟩)]⟩).outcome =
      GetOutcome.value (some ⟨[("user_id", Val.vInt 1)]⟩) :=
  (cached_access_is_pure_hit "profile" ⟨"profiles", []⟩ "user_id" "id"
    ⟨true, [("id", Val.vInt 1)],
      [("profile", some ⟨[("user_id", Val.vInt 1)]⟩)]⟩
    (some ⟨[("user_id", Val.vInt 1)]⟩) rfl rfl).1

/-- C6.  Accessing a relationship descriptor on an instance with
`loaded = false` returns the builder scope for the relationship — a mode
switch, not an error: it issues no query (so no key lookup on the owner
is attempted), and every builder operation chains through the returned
scope onto the related builder. -/
theorem unloaded_access_is_builder_scope (attrName : String) (b : Builder)
    (foreign_key local_key : String) (inst : ModelState)
    (h : inst.loaded = false) :
    (descriptorGet attrName b foreign_key local_key inst).outcome =
      GetOutcome.scope b ∧
    (descriptorGet attrName b foreign_key local_key inst).queriesIssued = 0 ∧
    ∀ op : Builder → Builder,
      ((descriptorGet attrName b foreign_key local_key inst).outcome.forward
        op) = some (op b) := by
  have hred : descriptorGet attrName b foreign_key local_key inst =
      { outcome := GetOutcome.scope b, state := inst, queriesIssued := 0 } := by
    rw [descriptorGet]
    simp [h]
  exact ⟨by rw [hred], by rw [hred],
    fun op => by rw [hred]; rfl⟩

/-- Witness for C6: a concrete unloaded instance; the access yields the
builder scope for the `enrolment` table. -/
theorem unloaded_access_is_builder_scope_witness :
    (descriptorGet "students" ⟨"enrolment", enrolments⟩ "in_course_id"
        "course_id" ⟨false, [], []⟩).outcome =
      GetOutcome.scope ⟨"enrolment", enrolments⟩ :=
  (unloaded_access_is_builder_scope "students" ⟨"enrolment", enrolments⟩
    "in_course_id" "course_id" ⟨false, [], []⟩ rfl).1

theorem any_eq_not_isEmpty_filter (l : List Entity) (p : Entity → Bool) :
    l.any p = !(l.filter p).isEmpty := by
  induction l with
  | nil => rfl
  | cons x xs ih =>
    simp only [List.any_cons, List.filter_cons]
    cases p x <;> simp [ih]

/-- C7.  The correlated-existence clause built by `query_where_exists` /
`query_has` keeps exactly the owners having at least one related row
whose foreign key equals the owner local key and which matches the
predicate; with the always-true predicate it keeps exactly the owners
whose relationship is non-empty. -/
theorem where_has_selects_owners_with_matching_related
    (owners related : List Entity) (foreign_key local_key : String)
    (pred : Entity → Bool) :
    (∀ o, o ∈ where_has owners related foreign_key local_key pred ↔
      o ∈ owners ∧ ∃ r ∈ related,
        r.get foreign_key = o.get local_key ∧ pred r = true) ∧
    where_has owners related foreign_key local_key (fun _ => true) =
      owners.filter (fun o =>
        !(relatedRowsOf related foreign_key local_key o).isEmpty) := by
  constructor
  · intro o
    rw [where_has, List.mem_filter, List.any_eq_true]
    constructor
    · rintro ⟨ho, r, hr, hmatch⟩
      rw [Bool.and_eq_true] at hmatch
      exact ⟨ho, r, hr, eq_of_beq hmatch.1, hmatch.2⟩
    · rintro ⟨ho, r, hr, heq, hpred⟩
      refine ⟨ho, r, hr, ?_⟩
      rw [Bool.and_eq_true]
      exact ⟨by simp [heq], hpred⟩
  · rw [where_has]
    refine List.filter_congr ?_
    intro o _
    simp only [Bool.and_true]
    rw [any_eq_not_isEmpty_filter]
    rfl

theorem get_update_self (e : Entity) (k : String) (v : Val) :
    (e.update k v).get k = some v := by
  rw [Entity.update]
  by_cases h : e.attrs.any (fun kv => kv.1 == k)
  · rw [if_pos h]
    obtain ⟨attrs⟩ := e
    simp only at h ⊢
    induction attrs with
    | nil => simp at h
    | cons x xs ih =>
      by_cases hx : x.1 == k
      · rw [Entity.get]
        simp only [List.map_cons, if_pos hx]
        rw [List.find?_cons_of_pos _ (by simp [eq_of_beq hx])]
        rfl
      · rw [Entity.get]
        simp only [List.map_cons, if_neg hx]
        rw [List.find?_cons_of_neg _ (by simpa using hx)]
        have hxs : xs.any (fun kv => kv.1 == k) = true := by
          rcases List.any_eq_true.1 h with ⟨kv, hkv, hk⟩
          rcases List.mem_cons.1 hkv with rfl | hkv
          · exact absurd hk (by simpa using hx)
          · exact List.any_eq_true.2 ⟨kv, hkv, hk⟩
        exact ih hxs
  · rw [if_neg h]
    rw [Entity.get]
    simp only [List.find?_append]
    have hnone : e.attrs.find? (fun kv => kv.1 == k) = none := by
      rw [List.find?_eq_none]
      intro kv hkv
      rw [Bool.not_eq_true]
      by_contra hc
      exact h (List.any_eq_true.2 ⟨kv, hkv, by simpa using hc⟩)
    rw [hnone]
    simp

theorem get_update_other (e : Entity) (k kk : String) (v : Val) (h : kk ≠ k) :
    (e.update k v).get kk = e.get kk := by
  rw [Entity.update]
  by_cases hany : e.attrs.any (fun kv => kv.1 == k)
  · rw [if_pos hany]
    obtain ⟨attrs⟩ := e
    rw [Entity.get, Entity.get]
    simp only
    clear hany
    induction attrs with
    | nil => rfl
    | cons x xs ih =>
      by_cases hx : x.1 == k
      · have hxkk : (x.1 == kk) = false := by
          have : x.1 = k := eq_of_beq hx
          simp [this, Ne.symm h]
        simp only [List.map_cons, if_pos hx]
        rw [List.find?_cons_of_neg _ (by simp [hxkk]),
          List.find?_cons_of_neg _ (by simp [hxkk])]
        exact ih
      · simp only [List.map_cons, if_neg hx]
        by_cases hxkk : x.1 == kk
        · rw [List.find?_cons_of_pos _ (by simpa using hxkk),
            List.find?_cons_of_pos _ (by simpa using hxkk)]
        · rw [List.find?_cons_of_neg _ (by simpa using hxkk),
            List.find?_cons_of_neg _ (by simpa using hxkk)]
          exact ih
  · rw [if_neg hany]
    rw [Entity.get, Entity.get]
    simp only [List.find?_append]
    have htail : ([(k, v)].find? (fun kv => kv.1 == kk)) = none := by
      rw [List.find?_eq_none]
      intro kv hkv
      rcases List.mem_singleton.1 hkv with rfl
      simp [Ne.symm h]
    rw [htail]
    cases e.attrs.find? (fun kv => kv.1 == kk) <;> rfl

/-- C8.  Running `detach` on a related record performs an update that
sets the foreign-key column to NULL and leaves every other column
unchanged; at the table level the detached row is still present and the
table keeps its size — `detach` never deletes the related entity. -/
theorem detach_nulls_fk_and_frames_rest (foreign_key : String)
    (rows : List Entity) (related_record : Entity)
    (hmem : related_record ∈ rows) :
    (detach foreign_key related_record).get foreign_key = some Val.vNull ∧
    (∀ kk, kk ≠ foreign_key →
      (detach foreign_key related_record).get kk = related_record.get kk) ∧
    (detachInTable foreign_key rows related_record).length = rows.length ∧
    detach foreign_key related_record ∈
      detachInTable foreign_key rows related_record := by
  refine ⟨get_update_self related_record foreign_key Val.vNull,
    fun kk hkk => get_update_other related_record foreign_key kk Val.vNull hkk,
    by simp [detachInTable], ?_⟩
  exact List.mem_map.2 ⟨related_record, hmem, by simp⟩

/-- Witness for C8 at the fixture: detaching the first enrolment row
nulls only its foreign key and keeps its student column. -/
theorem detach_nulls_fk_and_frames_rest_witness :
    (detach "in_course_id"
        ⟨[("active_student_id", Val.vInt 100),
          ("in_course_id", Val.vInt 30)]⟩).get "active_student_id" =
      (⟨[("active_student_id", Val.vInt 100),
        ("in_course_id", Val.vInt 30)]⟩ : Entity).get "active_student_id" :=
  (detach_nulls_fk_and_frames_rest "in_course_id" enrolments
    ⟨[("active_student_id", Val.vInt 100), ("in_course_id", Val.vInt 30)]⟩
    (by decide)).2.1 "active_student_id" (by decide)

/-- C9.  Calling the `PostgresConnection` constructor without a
`full_details` mapping raises `AttributeError` — the line after
`self.full_details = full_details or {}` reads
`connection_pooling_max_size` from the raw `None` parameter; with a
mapping supplied (even an empty one) that lacks the key,
`connection_pool_size` defaults to 100. -/
theorem postgresInit_none_raises_and_pool_defaults
    (fd : List (String × Val))
    (h : fd.find? (fun kv => kv.1 == "connection_pooling_max_size") = none) :
    postgresInit none =
      Except.error (PyError.attributeError
        "NoneType object has no attribute get") ∧
    ∃ s, postgresInit (some fd) = Except.ok s ∧
      s.connection_pool_size = Val.vInt 100 := by
  refine ⟨rfl, _, rfl, ?_⟩
  show dictGet fd "connection_pooling_max_size" (Val.vInt 100) = Val.vInt 100
  rw [dictGet, h]

/-- Witness for C9: the empty mapping has no pooling key, so the
constructor succeeds with a pool size of 100, while `None` raises. -/
theorem postgresInit_none_raises_and_pool_defaults_witness :
    postgresInit none =
      Except.error (PyError.attributeError
        "NoneType object has no attribute get") :=
  (postgresInit_none_raises_and_pool_defaults [] rfl).1

theorem pgBegin_level (s : PGState) :
    (pgBegin s).transaction_level = s.transaction_level + 1 := rfl

theorem pgCommit_level (s : PGState) :
    (pgCommit s).transaction_level = s.transaction_level - 1 := by
  simp only [pgCommit]
  split <;> rfl

theorem pgRollback_level (s : PGState) :
    (pgRollback s).transaction_level = s.transaction_level - 1 := by
  simp only [pgRollback]
  split <;> rfl

theorem pgQueryFinally_level (s : PGState) :
    (pgQueryFinally s).transaction_level = s.transaction_level := by
  rw [pgQueryFinally]
  split <;> rfl

/-- C10.  The transaction bookkeeping of `PostgresConnection`: over any
interleaving of `begin`, `commit`, `rollback` and `query`, the
transaction level equals its starting value plus the number of `begin`
calls minus the numbers of `commit` and `rollback` calls (each of which
decrements unconditionally, so the level can go negative); the physical
commit or rollback happens exactly when the level is 1 at the time of
the call; and the `finally` block of `query` releases the connection
(`open = 0` and the physical connection closed) exactly when the level
is at most 0, leaving the state untouched otherwise. -/
theorem pg_transaction_level_bookkeeping :
    (∀ (ops : List PGOp) (s : PGState),
      (ops.foldl pgStep s).transaction_level =
        s.transaction_level + (countOp PGOp.begin_ ops : Int) -
          (countOp PGOp.commit ops : Int) -
          (countOp PGOp.rollback ops : Int)) ∧
    (∀ s : PGState, (pgBegin s).transaction_level =
      s.transaction_level + 1) ∧
    (∀ s : PGState, (pgCommit s).transaction_level =
      s.transaction_level - 1) ∧
    (∀ s : PGState, (pgRollback s).transaction_level =
      s.transaction_level - 1) ∧
    (∀ s : PGState, (pgCommit s).physical_commits =
      s.physical_commits + if s.transaction_level = 1 then 1 else 0) ∧
    (∀ s : PGState, (pgRollback s).physical_rollbacks =
      s.physical_rollbacks + if s.transaction_level = 1 then 1 else 0) ∧
    (∀ s : PGState, pgQueryFinally s =
      if s.transaction_level ≤ 0 then
        { s with open_ := 0, connection_open := false }
      else s) := by
  refine ⟨?_, pgBegin_level, pgCommit_level, pgRollback_level, ?_, ?_,
    fun s => rfl⟩
  · intro ops
    induction ops with
    | nil =>
      intro s
      simp [countOp]
    | cons o t ih =>
      intro s
      rw [List.foldl_cons, ih]
      cases o with
      | begin_ =>
        have hstep : (pgStep s PGOp.begin_).transaction_level =
          s.transaction_level + 1 := pgBegin_level s
        rw [hstep]
        simp [countOp, List.filter_cons, beq_iff_eq]
        omega
      | commit =>
        have hstep : (pgStep s PGOp.commit).transaction_level =
          s.transaction_level - 1 := pgCommit_level s
        rw [hstep]
        simp [countOp, List.filter_cons, beq_iff_eq]
        omega
      | rollback =>
        have hstep : (pgStep s PGOp.rollback).transaction_level =
          s.transaction_level - 1 := pgRollback_level s
        rw [hstep]
        simp [countOp, List.filter_cons, beq_iff_eq]
        omega
      | query =>
        have hstep : (pgStep s PGOp.query).transaction_level =
          s.transaction_level := pgQueryFinally_level s
        rw [hstep]
        simp [countOp, List.filter_cons, beq_iff_eq]
  · intro s
    simp only [pgCommit]
    split
    · next h => simp [h]
    · next h => simp [h]
  · intro s
    simp only [pgRollback]
    split
    · next h => simp [h]
    · next h => simp [h]
